import Mathlib

/-!
Verification of the HandBrake transcoding orchestrator in `media-mgmt`
(`lib/handbrake.go`, with the duration parser also present in `lib/ffprobe.go`).

The Go code is shallowly embedded: paths are `String`s manipulated by
executable models of `path/filepath` (`Ext`, `Base`, `Dir`, `Join`, `Clean`)
and `strings` helpers; the filesystem is a map from path to file; the
external subprocesses (ffprobe, HandBrakeCLI) are an oracle (`Env`) supplying
their observable results; `float64` arithmetic is modelled over `ℚ` with Go's
float-to-int64 conversion as truncation toward zero.
-/

namespace MediaMgmt

/-- The double-quote character (written via its code point so that character
literals stay unambiguous). -/
def qc : Char := Char.ofNat 34

/-! ## Models of Go `strings` helpers -/

/-- Model of `strings.ToLower` restricted to the ASCII range used by the
HDR indicator scan (`Char.toLower` lower-cases exactly ASCII letters). -/
def lowerStr (s : String) : String := ⟨s.data.map Char.toLower⟩

/-- Containment of `needle` in `hay` as lists of characters; model of the
search underlying `strings.Contains`. -/
def hasSubList (needle : List Char) : List Char → Bool
  | [] => needle.isEmpty
  | c :: rest => needle.isPrefixOf (c :: rest) || hasSubList needle rest

/-- Model of Go `strings.Contains hay needle`. -/
def containsStr (hay needle : String) : Bool := hasSubList needle.data hay.data

/-- Suffix trimming on character lists. -/
def trimSuffixList (l suf : List Char) : List Char :=
  if suf.isSuffixOf l then l.take (l.length - suf.length) else l

/-- Model of Go `strings.TrimSuffix`. -/
def goTrimSuffix (s suf : String) : String := ⟨trimSuffixList s.data suf.data⟩

/-! ## Models of Go `path/filepath` functions

`filepath.Clean` is modelled by its standard component semantics: split on
the separator, drop empty and `.` components, resolve `..` against a stack
(dropping it at the root, keeping it at the front of a relative path), and
rejoin. -/

/-- Split a character list on the `/` separator (every separator produces a
boundary, so repeated separators yield empty components). -/
def splitSlash : List Char → List (List Char)
  | [] => [[]]
  | c :: rest =>
    if c = '/' then [] :: splitSlash rest
    else
      match splitSlash rest with
      | [] => [[c]]
      | h :: tl => (c :: h) :: tl

/-- One step of the `Clean` component stack: skip empty and `.` components,
resolve `..`, push normal components. -/
def stackStep (rooted : Bool) (stack : List (List Char)) (c : List Char) :
    List (List Char) :=
  if c = [] ∨ c = ['.'] then stack
  else if c = ['.', '.'] then
    match stack with
    | [] => if rooted then [] else [c]
    | top :: rest => if top = ['.', '.'] then c :: top :: rest else rest
  else c :: stack

/-- Run the `Clean` stack over a component list (resulting stack is in
reverse order). -/
def cleanStack (rooted : Bool) : List (List Char) → List (List Char) → List (List Char)
  | stack, [] => stack
  | stack, c :: cs => cleanStack rooted (stackStep rooted stack c) cs

/-- Rejoin components with `/` separators. -/
def joinComps : List (List Char) → List Char
  | [] => []
  | [c] => c
  | c :: c' :: rest => c ++ '/' :: joinComps (c' :: rest)

/-- Whether a path is rooted (starts with `/`). -/
def isRooted (l : List Char) : Bool :=
  match l with
  | '/' :: _ => true
  | _ => false

/-- The cleaned component list of a path. -/
def cleanParts (l : List Char) : List (List Char) :=
  (cleanStack (isRooted l) [] (splitSlash l)).reverse

/-- Model of Go `filepath.Clean` (with `/` as separator). -/
def cleanPath (s : String) : String :=
  if isRooted s.data then ⟨'/' :: joinComps (cleanParts s.data)⟩
  else if cleanParts s.data = [] then (".")
  else ⟨joinComps (cleanParts s.data)⟩

/-- Model of Go `filepath.Ext`: the suffix beginning at the final dot in the
final slash-separated element, or empty if there is none.  The scan walks the
reversed character list. -/
def extRev : List Char → List Char → List Char
  | [], _ => []
  | c :: rest, acc =>
    if c = '/' then []
    else if c = '.' then c :: acc
    else extRev rest (c :: acc)

/-- Model of Go `filepath.Ext`. -/
def extPath (s : String) : String := ⟨extRev s.data.reverse []⟩

/-- Model of Go `filepath.Base`: strip trailing slashes and take the part
after the last remaining slash (`"."` for the empty path, `"/"` for a path
of only slashes). -/
def basePath (s : String) : String :=
  if s.data = [] then (".")
  else
    let stripped := (s.data.reverse.dropWhile (fun c => c = '/')).reverse
    if stripped = [] then ("/")
    else ⟨(stripped.reverse.takeWhile (fun c => c ≠ '/')).reverse⟩

/-- Model of Go `filepath.Dir`: everything up to and including the final
slash, cleaned (`Clean("")` is `"."`). -/
def dirPath (s : String) : String :=
  cleanPath ⟨(s.data.reverse.dropWhile (fun c => c ≠ '/')).reverse⟩

/-- Model of Go `filepath.Join` on two elements: empty elements are dropped
and the result is cleaned; all-empty input gives the empty path. -/
def joinPath (a b : String) : String :=
  if a = "" then (if b = "" then ("") else cleanPath b)
  else if b = "" then cleanPath a
  else cleanPath (a ++ ("/") ++ b)

/-! ## VideoInspector: HDR detection and duration parsing
(`detectHDR` / `parseDuration` in `lib/handbrake.go`; the same logic appears
in `lib/ffprobe.go`, where `parseDuration` instead fails hard). -/

/-- The fixed HDR indicator list from `detectHDR` / `DetectHDR`. -/
def hdrIndicators : List String :=
  ["bt2020", "smpte2084", "arib-std-b67", "color_primaries=bt2020",
   "color_transfer=smpte2084", "yuv420p10le", "yuv422p10le", "yuv444p10le"]

/-- Model of `detectHDR`: lower-case the ffprobe output and scan it for any
of the fixed indicators. -/
def detectHDR (ffprobeOutput : String) : Bool :=
  hdrIndicators.any (fun ind => containsStr (lowerStr ffprobeOutput) ind)

/-- Whitespace class of the RE2 `\s` escape. -/
def isSpaceRE (c : Char) : Bool :=
  c = ' ' ∨ c = '\t' ∨ c = '\n' ∨ c = Char.ofNat 12 ∨ c = Char.ofNat 13

/-- The literal part of the duration regex: `"duration"` including its
surrounding double quotes. -/
def durationLit : List Char := qc :: ("duration").data ++ [qc]

/-- Attempt to match the regex `"duration"\s*:\s*"([^"]+)"` at the start of
the given character list, returning the capture group. -/
def matchDurationAt (l : List Char) : Option (List Char) :=
  if durationLit.isPrefixOf l then
    let r1 := (l.drop durationLit.length).dropWhile isSpaceRE
    match r1 with
    | ':' :: r2 =>
      let r3 := r2.dropWhile isSpaceRE
      match r3 with
      | c :: r4 =>
        if c = qc then
          let cap := r4.takeWhile (fun d => d ≠ qc)
          if cap = [] then none
          else
            match r4.drop cap.length with
            | d :: _ => if d = qc then some cap else none
            | [] => none
        else none
      | [] => none
    | _ => none
  else none

/-- Leftmost match of the duration regex over the whole output. -/
def findDuration : List Char → Option (List Char)
  | [] => none
  | c :: rest =>
    match matchDurationAt (c :: rest) with
    | some cap => some cap
    | none => findDuration rest

/-- Value of a digit run. -/
def digitsToNat (l : List Char) : Nat :=
  l.foldl (fun a c => 10 * a + (c.toNat - 48)) 0

/-- Decimal digit test. -/
def isDigitCh (c : Char) : Bool := '0' ≤ c ∧ c ≤ '9'

/-- Model of Go `strconv.ParseFloat` restricted to finite decimal forms
(optional sign, digits with optional fraction, optional decimal exponent) —
the forms ffprobe emits; hexadecimal floats, underscores, `Inf` and `NaN`
have no `ℚ` counterpart and parse to `none`. -/
def parseGoFloat (s : String) : Option ℚ :=
  let p := fun (l : List Char) => -- unsigned mantissa ++ rest
    let ip := l.takeWhile isDigitCh
    let r1 := l.drop ip.length
    match r1 with
    | '.' :: t =>
      let fp := t.takeWhile isDigitCh
      (ip, fp, t.drop fp.length)
    | _ => (ip, [], r1)
  let (sign, l1) :=
    match s.data with
    | '-' :: t => ((-1 : ℚ), t)
    | '+' :: t => ((1 : ℚ), t)
    | t => ((1 : ℚ), t)
  let (ip, fp, r2) := p l1
  if ip.length + fp.length = 0 then none
  else
    let mant : ℚ := (digitsToNat ip : ℚ) + (digitsToNat fp : ℚ) / ((10 : ℚ) ^ fp.length)
    match r2 with
    | [] => some (sign * mant)
    | e :: t =>
      if e = 'e' ∨ e = 'E' then
        let (esign, t1) :=
          match t with
          | '-' :: u => ((-1 : ℤ), u)
          | '+' :: u => ((1 : ℤ), u)
          | u => ((1 : ℤ), u)
        let ed := t1.takeWhile isDigitCh
        if ed.length = 0 ∨ t1.drop ed.length ≠ [] then none
        else some (sign * mant * (10 : ℚ) ^ (esign * (digitsToNat ed : ℤ)))
      else none

/-- The duration value extractable from an ffprobe output: the regex capture
fed through `ParseFloat`.  This is the shared core of both `parseDuration`
variants in the repository. -/
def durationValue (ffprobeOutput : String) : Option ℚ :=
  match findDuration ffprobeOutput.data with
  | none => none
  | some cap => parseGoFloat ⟨cap⟩

/-- Model of `parseDuration` in `lib/handbrake.go`: on any failure to
extract a duration it logs a warning and returns the 3600-second default. -/
def parseDuration (ffprobeOutput : String) : ℚ :=
  match durationValue ffprobeOutput with
  | some d => d
  | none => 3600

/-- Model of `parseDuration` in `lib/ffprobe.go`: failure to extract a
duration is an error (`none`). -/
def ffprobeParseDuration (ffprobeOutput : String) : Option ℚ :=
  durationValue ffprobeOutput

/-! ## Data model -/

/-- Go float64-to-int64 conversion: truncation toward zero
(`Int.tdiv` of the reduced numerator and denominator). -/
def f64toI64 (q : ℚ) : ℤ := q.num.tdiv (q.den : ℤ)

/-- `VideoInfo` (the fields the orchestrator consumes; `Width`/`Height` are
never read by it). -/
structure VideoInfo where
  path : String
  isHDR : Bool
  duration : ℚ
deriving DecidableEq

/-- Model of `GetVideoInfo` in `lib/ffprobe.go`: fails when ffprobe fails or
when no duration can be parsed. -/
def ffprobeGetVideoInfo (filePath : String) (probeOut : Option String) :
    Option VideoInfo :=
  match probeOut with
  | none => none
  | some out =>
    match durationValue out with
    | none => none
    | some d => some ⟨filePath, detectHDR out, d⟩

/-- The `VideoInfo` the monolithic transcoder builds from a successful probe
(`getVideoInfo` in `lib/handbrake.go`): HDR flag plus the (defaulted)
duration.  There is no failure case beyond the probe itself failing. -/
def mkVideoInfo (filePath : String) (probeOut : String) : VideoInfo :=
  { path := filePath, isHDR := detectHDR probeOut, duration := parseDuration probeOut }

/-- `SkipInfo`, the JSON sidecar record (timestamp modelled as an abstract
clock value supplied by the environment). -/
structure SkipInfo where
  reason : String
  quality : ℤ
  encoder : String
  timestamp : ℤ
  originalSizeBytes : ℤ
  estimatedSizeBytes : ℤ
  requiredSizeBytes : ℤ
deriving DecidableEq

/-- A file visible in the modelled filesystem: either a media file of a
given byte size or a written skip sidecar. -/
inductive FsFile where
  | media (size : ℤ)
  | skipRec (info : SkipInfo)
deriving DecidableEq

/-- Byte size of a file as returned by `os.Stat`. -/
def FsFile.size : FsFile → ℤ
  | .media s => s
  | .skipRec _ => 0

/-- The filesystem: a partial map from paths to files. -/
def FS : Type := String → Option FsFile

/-- Point update of the filesystem (`none` models removal). -/
def fsSet (fs : FS) (p : String) (v : Option FsFile) : FS :=
  fun q => if q = p then v else fs q

/-- Model of `os.Rename src dst`: `dst` receives the file at `src`, which
disappears. -/
def fsRename (fs : FS) (src dst : String) : FS :=
  fun q => if q = src then none else if q = dst then fs src else fs q

/-- The `HandBrakeTranscoder` configuration fields consumed per file. -/
structure Transcoder where
  outputSuffix : String
  overwrite : Bool
  quality : ℤ
  minSavingsPercent : ℤ

/-- Oracle for the external world during one file's processing: subprocess
results, probe output, cancellation, and the clock. -/
structure Env where
  hasVideoToolbox : Bool
  probe : Option String
  segEncode : Nat → Option ℤ
  fullEncode : Bool
  fullEncodeSize : ℤ
  partialSize : Option ℤ
  renameOk : Bool
  skipWriteOk : Bool
  ctxCancelled : Bool
  now : ℤ

/-- Observable actions of one file's processing. -/
inductive Ev where
  | skipStat
  | segmentEncode (startTime : ℚ) (segDur : ℚ)
  | fullEncode (encoder : String)
  | skipWrite (info : SkipInfo)
deriving DecidableEq

/-- Result of processing one file: whether `transcodeFile` returned `nil`,
the filesystem afterwards, and the actions taken. -/
structure Outcome where
  ok : Bool
  fs : FS
  events : List Ev

/-! ## Per-file operations (`lib/handbrake.go`) -/

/-- Model of `selectEncoder`: the 2×2 decision table over hardware
availability and the HDR flag. -/
def selectEncoder (videoInfo : VideoInfo) (hasVideoToolbox : Bool) : String :=
  if hasVideoToolbox then
    if videoInfo.isHDR then ("vt_h265_10bit") else ("vt_h265")
  else
    if videoInfo.isHDR then ("x265_10bit") else ("x265")

/-- Model of the sidecar path in `checkSkipFile` / `createSkipFile`:
the input path with its extension replaced by `.skip`. -/
def skipSidecarPath (filePath : String) : String :=
  goTrimSuffix filePath (extPath filePath) ++ (".skip")

/-- Model of `generateOutputPath`:
`Join(Dir(input), TrimSuffix(Base(input), Ext(input)) + suffix + ".mkv")`. -/
def generateOutputPath (t : Transcoder) (inputPath : String) : String :=
  joinPath (dirPath inputPath)
    (goTrimSuffix (basePath inputPath) (extPath inputPath) ++ t.outputSuffix ++ (".mkv"))

/-- Model of `createSkipFile`'s record:
`requiredSize = int64(float64(originalSize) * (100 - float64(minSavings)) / 100)`. -/
def mkSkipInfo (t : Transcoder) (env : Env) (reason : String)
    (originalSize estimatedSize : ℤ) (encoder : String) : SkipInfo :=
  { reason := reason
    quality := t.quality
    encoder := encoder
    timestamp := env.now
    originalSizeBytes := originalSize
    estimatedSizeBytes := estimatedSize
    requiredSizeBytes :=
      f64toI64 ((originalSize : ℚ) * ((100 : ℚ) - (t.minSavingsPercent : ℚ)) / 100) }

/-- Model of `estimateOutputSize`: encode 10-second segments at 25%, 50% and
75% of the duration (each attempt is an observable `segmentEncode` action),
sum the sizes of the segments that succeeded, and extrapolate
`int64(totalSize / (successes * 10.0) * duration)`; zero successes — or the
cancellation check at the top of the loop — fail the whole estimation. -/
def estimateOutputSize (env : Env) (videoInfo : VideoInfo) :
    Option ℤ × List Ev :=
  if env.ctxCancelled then (none, [])
  else
    let segmentDuration : ℚ := 10
    let positions : List ℚ := [1/4, 1/2, 3/4]
    let evs := positions.map
      (fun pos => Ev.segmentEncode (videoInfo.duration * pos) segmentDuration)
    let segs : List (Option ℤ) := (List.range 3).map env.segEncode
    let succ : List ℤ := segs.filterMap id
    if succ.length = 0 then (none, evs)
    else
      let totalSize : ℤ := succ.sum
      let avgBytesPerSecond : ℚ := (totalSize : ℚ) / ((succ.length : ℚ) * segmentDuration)
      (some (f64toI64 (avgBytesPerSecond * videoInfo.duration)), evs)

/-- Outcome of `checkSizeSavings`: skip the file, proceed to the full
encode, or estimation failure (which the caller treats as proceed). -/
inductive SavingsOutcome where
  | skip
  | proceed
  | estFail
deriving DecidableEq

/-- Model of `checkSizeSavings`: compute
`savingsPercent = (originalSize - estimatedSize) / originalSize * 100`; when
it is below the threshold, write the skip sidecar (write failures are
swallowed) and report skip. -/
def checkSizeSavings (t : Transcoder) (env : Env) (filePath : String)
    (originalFileSize : ℤ) (videoInfo : VideoInfo) (fs : FS) :
    SavingsOutcome × FS × List Ev :=
  match estimateOutputSize env videoInfo with
  | (none, evs) => (.estFail, fs, evs)
  | (some estimatedSize, evs) =>
    let savingsBytes : ℤ := originalFileSize - estimatedSize
    let savingsPercent : ℚ := (savingsBytes : ℚ) / (originalFileSize : ℚ) * 100
    if savingsPercent < (t.minSavingsPercent : ℚ) then
      let encoder := selectEncoder videoInfo env.hasVideoToolbox
      let info := mkSkipInfo t env ("insufficient_savings") originalFileSize estimatedSize encoder
      let fs1 :=
        if env.skipWriteOk then fsSet fs (skipSidecarPath filePath) (some (.skipRec info))
        else fs
      (.skip, fs1, evs ++ [Ev.skipWrite info])
    else (.proceed, fs, evs)

/-- The encode/commit phase of `transcodeFile`: encode to
`finalOutputPath + ".tmp"`; on success rename it onto `finalOutputPath`; on
any failure (including a failed rename) the deferred cleanup removes the
in-progress file.  A cancelled context makes the subprocess fail. -/
def encodePhase (env : Env) (fs : FS) (finalOutputPath : String)
    (videoInfo : VideoInfo) (evs : List Ev) : Outcome :=
  let inProgressPath := finalOutputPath ++ (".tmp")
  let encoder := selectEncoder videoInfo env.hasVideoToolbox
  let evs2 := evs ++ [Ev.fullEncode encoder]
  if env.fullEncode && !env.ctxCancelled then
    let fs2 := fsSet fs inProgressPath (some (.media env.fullEncodeSize))
    if env.renameOk then
      { ok := true, fs := fsRename fs2 inProgressPath finalOutputPath, events := evs2 }
    else
      { ok := false, fs := fsSet fs2 inProgressPath none, events := evs2 }
  else
    let fsPartial :=
      match env.partialSize with
      | some sz => fsSet fs inProgressPath (some (.media sz))
      | none => fs
    { ok := false, fs := fsSet fsPartial inProgressPath none, events := evs2 }

/-- The part of `transcodeFile` from video inspection onward: `GetVideoInfo`
(probe), `os.Stat` of the input, optional size estimation (whose failure is
logged and treated as proceed), then the encode/commit phase.
`printMediaInfo` failures are only logged and have no observable effect, so
they are not modelled. -/
def inspectPhase (t : Transcoder) (env : Env) (fs : FS) (filePath : String)
    (finalOutputPath : String) (evs0 : List Ev) : Outcome :=
  match env.probe with
  | none => { ok := false, fs := fs, events := evs0 }
  | some probeOut =>
    let videoInfo : VideoInfo := mkVideoInfo filePath probeOut
    match fs filePath with
    | none => { ok := false, fs := fs, events := evs0 }
    | some f =>
      let originalFileSize := f.size
      let savings :=
        if 0 < t.minSavingsPercent then
          checkSizeSavings t env filePath originalFileSize videoInfo fs
        else (.proceed, fs, [])
      match savings with
      | (.skip, fs1, evs1) => { ok := true, fs := fs1, events := evs0 ++ evs1 }
      | (_, fs1, evs1) =>
        encodePhase env fs1 finalOutputPath videoInfo (evs0 ++ evs1)

/-- Model of `transcodeFile`: existing-output check, skip-sidecar check,
then the inspection/estimation/encode pipeline. -/
def transcodeFile (t : Transcoder) (env : Env) (fs : FS) (filePath : String) :
    Outcome :=
  let finalOutputPath := generateOutputPath t filePath
  if !t.overwrite && (fs finalOutputPath).isSome then
    { ok := true, fs := fs, events := [] }
  else if 0 < t.minSavingsPercent then
    if (fs (skipSidecarPath filePath)).isSome then
      { ok := true, fs := fs, events := [Ev.skipStat] }
    else inspectPhase t env fs filePath finalOutputPath [Ev.skipStat]
  else inspectPhase t env fs filePath finalOutputPath []

/-- Model of the file loop in `Run`: the shared cancellation signal is
checked before each file; a failed file is logged and the loop continues. -/
def runFiles (t : Transcoder) (envOf : String → Env) :
    FS → List String → FS × List Ev
  | fs, [] => (fs, [])
  | fs, f :: rest =>
    if (envOf f).ctxCancelled then (fs, [])
    else
      let o := transcodeFile t (envOf f) fs f
      let r := runFiles t envOf o.fs rest
      (r.1, o.events ++ r.2)

/-! ## Concrete fixtures for witnesses and counterexamples -/

/-- A filesystem holding exactly one input video. -/
def fsEx : FS := fun q => if q = "a.mp4" then some (.media 1000000) else none

/-- Configuration: suffix `-x`, no overwrite, quality 25, savings checking
disabled. -/
def tEx : Transcoder :=
  { outputSuffix := "-x", overwrite := false, quality := 25, minSavingsPercent := 0 }

/-- Environment in which everything succeeds (probe output empty, so the
duration parser sees nothing parseable). -/
def envOkEx : Env :=
  { hasVideoToolbox := false, probe := some (""), segEncode := fun _ => none,
    fullEncode := true, fullEncodeSize := 500, partialSize := none,
    renameOk := true, skipWriteOk := true, ctxCancelled := false, now := 0 }

/-- Environment in which the encode succeeds but the rename fails. -/
def envRenameFailEx : Env :=
  { hasVideoToolbox := false, probe := some (""), segEncode := fun _ => none,
    fullEncode := true, fullEncodeSize := 500, partialSize := none,
    renameOk := false, skipWriteOk := true, ctxCancelled := false, now := 0 }

/-- Environment in which the encode subprocess fails, leaving a partial
in-progress file behind. -/
def envEncodeFailEx : Env :=
  { hasVideoToolbox := false, probe := some (""), segEncode := fun _ => none,
    fullEncode := false, fullEncodeSize := 500, partialSize := some 123,
    renameOk := true, skipWriteOk := true, ctxCancelled := false, now := 0 }

/-- Input fixture with a sidecar present whose contents are an arbitrary
(non-JSON) file — presence alone must suffice. -/
def fsSkipEx : FS := fun q =>
  if q = "a.mp4" then some (.media 1000000)
  else if q = "a.skip" then some (.media 42)
  else none

/-- Configuration with a positive minimum-savings threshold. -/
def tMinEx : Transcoder :=
  { outputSuffix := "-x", overwrite := false, quality := 25, minSavingsPercent := 20 }

/-- Filesystem after a first run over two inputs: one committed output, one
sidecar-skipped input. -/
def fsDoneEx : FS := fun q =>
  if q = "a.mp4" then some (.media 1000000)
  else if q = "a-x.mkv" then some (.media 400000)
  else if q = "b.mp4" then some (.media 2000000)
  else if q = "b.skip" then some (.skipRec
    { reason := "insufficient_savings", quality := 25, encoder := "x265",
      timestamp := 0, originalSizeBytes := 2000000, estimatedSizeBytes := 1900000,
      requiredSizeBytes := 1600000 })
  else none

/-- Configuration with an empty output suffix (output container may equal
the source path). -/
def tNoSuffixEx : Transcoder :=
  { outputSuffix := "", overwrite := false, quality := 25, minSavingsPercent := 0 }

/-- As `tNoSuffixEx` but with the overwrite flag set. -/
def tOverwriteEx : Transcoder :=
  { outputSuffix := "", overwrite := true, quality := 25, minSavingsPercent := 0 }

/-- A source `.mkv` sitting in a directory, for the in-place scenarios. -/
def fsInplaceEx : FS := fun q => if q = "dir/v.mkv" then some (.media 777) else none

/-- A probe output declaring a 30-second duration (the double quotes of the
JSON are built from their code point). -/
def probeS : String := ⟨[qc] ++ ("duration").data ++ [qc, ':', qc] ++ ("30").data ++ [qc]⟩

/-- Environment whose three sampled segments all succeed, with sizes 2, 4
and 6 bytes. -/
def envSegEx : Env :=
  { hasVideoToolbox := false, probe := some probeS,
    segEncode := fun i => if i = 0 then some 2 else if i = 1 then some 4 else some 6,
    fullEncode := true, fullEncodeSize := 500, partialSize := none,
    renameOk := true, skipWriteOk := true, ctxCancelled := false, now := 0 }

/-! ## Path shape lemmas

Every final output path ends in `.mkv`, every in-progress path in `.tmp`,
every sidecar in `.skip`; hence the three kinds of paths of one job are
pairwise distinct. -/

/-- The characters of `".mkv"`. -/
def mkvTail : List Char := ['.', 'm', 'k', 'v']

/-- The characters of `".tmp"`. -/
def tmpTail : List Char := ['.', 't', 'm', 'p']

/-- The characters of `".skip"`. -/
def skipTail : List Char := ['.', 's', 'k', 'i', 'p']

lemma data_append (a b : String) : (a ++ b).data = a.data ++ b.data := by
  cases a; cases b; rfl

lemma splitSlash_no_slash (m : List Char) (hm : ∀ c ∈ m, c ≠ '/') :
    splitSlash m = [m] := by
  induction m with
  | nil => rfl
  | cons c rest ih =>
    have hc : c ≠ '/' := hm c (by simp)
    have ih' := ih (fun d hd => hm d (by simp [hd]))
    simp [splitSlash, hc, ih']

lemma splitSlash_append_tail (m : List Char) (hm : ∀ c ∈ m, c ≠ '/') (z : List Char) :
    ∃ init w, splitSlash (z ++ m) = init ++ [w ++ m] := by
  induction z with
  | nil =>
    exact ⟨[], [], by simp [splitSlash_no_slash m hm]⟩
  | cons a z ih =>
    obtain ⟨init, w, h⟩ := ih
    by_cases ha : a = '/'
    · exact ⟨[] :: init, w, by simp [splitSlash, ha, h]⟩
    · cases init with
      | nil => exact ⟨[], a :: w, by simp [splitSlash, ha, h]⟩
      | cons i0 it => exact ⟨(a :: i0) :: it, w, by simp [splitSlash, ha, h]⟩

lemma cleanStack_snoc (rooted : Bool) (cs : List (List Char)) (c : List Char) :
    ∀ st, cleanStack rooted st (cs ++ [c]) = stackStep rooted (cleanStack rooted st cs) c := by
  induction cs with
  | nil => intro st; rfl
  | cons d ds ih => intro st; simp [cleanStack, ih]

lemma stackStep_push (rooted : Bool) (st : List (List Char)) (c : List Char)
    (h0 : c ≠ []) (h1 : c ≠ ['.']) (h2 : c ≠ ['.', '.']) :
    stackStep rooted st c = c :: st := by
  have : ¬(c = [] ∨ c = ['.']) := by simp [h0, h1]
  simp [stackStep, this, h2]

lemma joinComps_snoc (c : List Char) (init : List (List Char)) :
    ∃ y, joinComps (init ++ [c]) = y ++ c := by
  induction init with
  | nil => exact ⟨[], rfl⟩
  | cons h t ih =>
    obtain ⟨y, hy⟩ := ih
    cases t with
    | nil => exact ⟨h ++ ['/'], by simp [joinComps]⟩
    | cons t0 ts =>
      refine ⟨h ++ '/' :: y, ?_⟩
      have : joinComps ((h :: t0 :: ts) ++ [c]) = h ++ '/' :: joinComps ((t0 :: ts) ++ [c]) := by
        simp [joinComps]
      rw [this, hy]
      simp

lemma append_mkv_ne_small (w : List Char) :
    w ++ mkvTail ≠ [] ∧ w ++ mkvTail ≠ ['.'] ∧ w ++ mkvTail ≠ ['.', '.'] := by
  refine ⟨?_, ?_, ?_⟩ <;> intro h <;>
    have := congrArg List.length h <;> simp [mkvTail] at this

lemma cleanParts_ends_mkv (l z : List Char) (h : l = z ++ mkvTail) :
    ∃ Y w, cleanParts l = Y ++ [w ++ mkvTail] := by
  obtain ⟨init, w, hsplit⟩ :=
    splitSlash_append_tail mkvTail (by decide) z
  obtain ⟨h0, h1, h2⟩ := append_mkv_ne_small w
  refine ⟨(cleanStack (isRooted l) [] init).reverse, w, ?_⟩
  rw [cleanParts, h, hsplit, cleanStack_snoc, stackStep_push _ _ _ h0 h1 h2]
  simp

lemma cleanPath_ends_mkv (s : String) (z : List Char) (h : s.data = z ++ mkvTail) :
    ∃ y, (cleanPath s).data = y ++ mkvTail := by
  obtain ⟨Y, w, hparts⟩ := cleanParts_ends_mkv s.data z h
  obtain ⟨y, hy⟩ := joinComps_snoc (w ++ mkvTail) Y
  rw [cleanPath]
  by_cases hr : isRooted s.data
  · simp only [hr, if_true]
    exact ⟨'/' :: (y ++ w), by simp [hparts, hy]⟩
  · have hne : cleanParts s.data ≠ [] := by simp [hparts]
    simp only [hr, if_false, hne, Bool.false_eq_true]
    exact ⟨y ++ w, by simp [hparts, hy]⟩

lemma genOutputPath_ends_mkv (t : Transcoder) (p : String) :
    ∃ y, (generateOutputPath t p).data = y ++ mkvTail := by
  rw [generateOutputPath, joinPath]
  set a := dirPath p with ha
  set b := goTrimSuffix (basePath p) (extPath p) ++ t.outputSuffix ++ (".mkv") with hbdef
  have hb : b.data = (goTrimSuffix (basePath p) (extPath p) ++ t.outputSuffix).data ++ mkvTail := by
    rw [hbdef, data_append]; rfl
  have hbne : b ≠ "" := by
    intro he
    have := congrArg (fun u : String => u.data.length) he
    simp [hb, mkvTail] at this
  by_cases hae : a = ""
  · simp only [hae, if_true, hbne, if_false]
    exact cleanPath_ends_mkv b _ hb
  · simp only [hae, if_false, hbne, reduceIte]
    apply cleanPath_ends_mkv (a ++ ("/") ++ b) (a.data ++ '/' :: (goTrimSuffix (basePath p) (extPath p) ++ t.outputSuffix).data)
    rw [data_append, data_append, hb]
    simp

lemma skipSidecarPath_data (p : String) :
    (skipSidecarPath p).data = (goTrimSuffix p (extPath p)).data ++ skipTail := by
  rw [skipSidecarPath, data_append]; rfl

lemma append_tmp_data (s : String) :
    (s ++ (".tmp")).data = s.data ++ tmpTail := by
  rw [data_append]; rfl

lemma mkv_ne_skip {a b : String} {x y : List Char}
    (ha : a.data = x ++ mkvTail) (hb : b.data = y ++ skipTail) : a ≠ b := by
  intro h
  rw [h, hb] at ha
  have h2 := congrArg (fun l => l.reverse.head?) ha
  simp [mkvTail, skipTail, List.reverse_append] at h2

lemma tmp_ne_skip {a b : String} {x y : List Char}
    (ha : a.data = x ++ tmpTail) (hb : b.data = y ++ skipTail) : a ≠ b := by
  intro h
  rw [h, hb] at ha
  have h2 := congrArg (fun l => l.reverse.tail.head?) ha
  simp [tmpTail, skipTail, List.reverse_append] at h2

lemma append_tmp_ne_self (s : String) : s ++ (".tmp") ≠ s := by
  intro h
  have h2 := congrArg (fun u : String => u.data.length) h
  cases s
  simp [String.data_append] at h2

/-- The final output path is never the skip sidecar path. -/
lemma final_ne_skip (t : Transcoder) (p q : String) :
    generateOutputPath t p ≠ skipSidecarPath q := by
  obtain ⟨y, hy⟩ := genOutputPath_ends_mkv t p
  exact mkv_ne_skip hy (skipSidecarPath_data q)

/-- The in-progress path is never the skip sidecar path. -/
lemma tmpPath_ne_skip (f q : String) :
    f ++ (".tmp") ≠ skipSidecarPath q := by
  exact tmp_ne_skip (append_tmp_data f) (skipSidecarPath_data q)

/-! ## Filesystem and encode-phase lemmas -/

lemma fsSet_same (fs : FS) (p : String) (v : Option FsFile) : fsSet fs p v p = v := by
  simp [fsSet]

lemma fsSet_other (fs : FS) (p : String) (v : Option FsFile) (q : String) (h : q ≠ p) :
    fsSet fs p v q = fs q := by
  simp [fsSet, h]

lemma fsRename_src (fs : FS) (src dst : String) : fsRename fs src dst src = none := by
  simp [fsRename]

lemma fsRename_dst (fs : FS) (src dst : String) (h : dst ≠ src) :
    fsRename fs src dst dst = fs src := by
  simp [fsRename, h]

lemma fsRename_other (fs : FS) (src dst q : String) (h1 : q ≠ src) (h2 : q ≠ dst) :
    fsRename fs src dst q = fs q := by
  simp [fsRename, h1, h2]

/-- The in-progress path never survives the encode phase: it is either
renamed away on success or removed by the deferred cleanup. -/
lemma encodePhase_fs_tmp (env : Env) (fs : FS) (fp : String) (vi : VideoInfo)
    (evs : List Ev) :
    (encodePhase env fs fp vi evs).fs (fp ++ (".tmp")) = none := by
  rw [encodePhase]
  split
  · split
    · simp [fsRename]
    · simp [fsSet]
  · simp [fsSet]

/-- The final output path after the encode phase: the freshly renamed,
fully-written file when encode and rename both succeeded, otherwise exactly
what was there before. -/
lemma encodePhase_fs_final (env : Env) (fs : FS) (fp : String) (vi : VideoInfo)
    (evs : List Ev) :
    (encodePhase env fs fp vi evs).fs fp =
      if env.fullEncode && !env.ctxCancelled && env.renameOk then
        some (.media env.fullEncodeSize)
      else fs fp := by
  have htmp : fp ≠ fp ++ (".tmp") := fun h => append_tmp_ne_self fp h.symm
  rw [encodePhase]
  cases hfe : env.fullEncode && !env.ctxCancelled with
  | false =>
    simp only [hfe, Bool.false_and, if_false, Bool.false_eq_true]
    cases env.partialSize <;> simp [fsSet, htmp]
  | true =>
    simp only [hfe, Bool.true_and]
    cases hr : env.renameOk with
    | false => simp [hr, fsSet, htmp]
    | true =>
      simp [hr, fsRename, fsSet, htmp]

lemma encodePhase_events (env : Env) (fs : FS) (fp : String) (vi : VideoInfo)
    (evs : List Ev) :
    (encodePhase env fs fp vi evs).events =
      evs ++ [Ev.fullEncode (selectEncoder vi env.hasVideoToolbox)] := by
  rw [encodePhase]
  split
  · split <;> rfl
  · rfl

lemma encodePhase_ok (env : Env) (fs : FS) (fp : String) (vi : VideoInfo)
    (evs : List Ev) :
    (encodePhase env fs fp vi evs).ok =
      (env.fullEncode && !env.ctxCancelled && env.renameOk) := by
  rw [encodePhase]
  cases hfe : env.fullEncode && !env.ctxCancelled with
  | false => simp [hfe]
  | true =>
    simp only [hfe, Bool.true_and]
    cases hr : env.renameOk <;> simp [hr]

/-! ## `transcodeFile` branch lemmas -/

/-- Existing-output short-circuit. -/
lemma transcodeFile_output_exists (t : Transcoder) (env : Env) (fs : FS) (p : String)
    (h1 : t.overwrite = false) (h2 : (fs (generateOutputPath t p)).isSome) :
    transcodeFile t env fs p = { ok := true, fs := fs, events := [] } := by
  rw [transcodeFile]
  simp [h1, h2]

/-- Skip-sidecar short-circuit. -/
lemma transcodeFile_skipfile (t : Transcoder) (env : Env) (fs : FS) (p : String)
    (hgate : (!t.overwrite && (fs (generateOutputPath t p)).isSome) = false)
    (hmin : 0 < t.minSavingsPercent)
    (hskip : (fs (skipSidecarPath p)).isSome) :
    transcodeFile t env fs p = { ok := true, fs := fs, events := [Ev.skipStat] } := by
  rw [transcodeFile]
  simp [hgate, hmin, hskip]

/-- When neither short-circuit fires, `transcodeFile` is the inspection
pipeline (with the skip-marker stat recorded exactly when the threshold is
positive). -/
lemma transcodeFile_main (t : Transcoder) (env : Env) (fs : FS) (p : String)
    (hgate : (!t.overwrite && (fs (generateOutputPath t p)).isSome) = false)
    (hskip : 0 < t.minSavingsPercent → (fs (skipSidecarPath p)).isSome = false) :
    transcodeFile t env fs p =
      inspectPhase t env fs p (generateOutputPath t p)
        (if 0 < t.minSavingsPercent then [Ev.skipStat] else []) := by
  rw [transcodeFile]
  by_cases hmin : 0 < t.minSavingsPercent
  · simp [hgate, hmin, hskip hmin]
  · simp [hgate, hmin]

/-- A non-skip savings check leaves the filesystem untouched. -/
lemma css_fs_of_ne_skip (t : Transcoder) (env : Env) (p : String) (sz : ℤ)
    (vi : VideoInfo) (fs : FS)
    (h : (checkSizeSavings t env p sz vi fs).1 ≠ .skip) :
    (checkSizeSavings t env p sz vi fs).2.1 = fs := by
  rw [checkSizeSavings] at h ⊢
  rcases hest : estimateOutputSize env vi with ⟨r, evs⟩
  cases r with
  | none => simp [hest]
  | some est =>
    simp only [hest] at h ⊢
    split at h
    · simp at h
    · rename_i hcond
      rw [if_neg hcond]

lemma inspectPhase_probe_fail (t : Transcoder) (env : Env) (fs : FS)
    (p fp : String) (evs0 : List Ev) (h : env.probe = none) :
    inspectPhase t env fs p fp evs0 = { ok := false, fs := fs, events := evs0 } := by
  rw [inspectPhase, h]

lemma inspectPhase_stat_fail (t : Transcoder) (env : Env) (fs : FS)
    (p fp : String) (evs0 : List Ev) (out : String)
    (hp : env.probe = some out) (hf : fs p = none) :
    inspectPhase t env fs p fp evs0 = { ok := false, fs := fs, events := evs0 } := by
  rw [inspectPhase, hp]
  simp [hf]

lemma inspectPhase_skip (t : Transcoder) (env : Env) (fs : FS)
    (p fp : String) (evs0 : List Ev) (out : String) (f : FsFile)
    (fs1 : FS) (evs1 : List Ev)
    (hp : env.probe = some out) (hf : fs p = some f)
    (hmin : 0 < t.minSavingsPercent)
    (hsk : checkSizeSavings t env p f.size (mkVideoInfo p out) fs = (.skip, fs1, evs1)) :
    inspectPhase t env fs p fp evs0 = { ok := true, fs := fs1, events := evs0 ++ evs1 } := by
  rw [inspectPhase, hp]
  simp [hf, hmin, hsk]

lemma inspectPhase_encode (t : Transcoder) (env : Env) (fs : FS)
    (p fp : String) (evs0 : List Ev) (out : String) (f : FsFile)
    (hp : env.probe = some out) (hf : fs p = some f)
    (hns : 0 < t.minSavingsPercent →
      (checkSizeSavings t env p f.size (mkVideoInfo p out) fs).1 ≠ .skip) :
    ∃ evs1, inspectPhase t env fs p fp evs0 =
      encodePhase env fs fp (mkVideoInfo p out) (evs0 ++ evs1) := by
  by_cases hmin : 0 < t.minSavingsPercent
  · rcases hsv : checkSizeSavings t env p f.size (mkVideoInfo p out) fs with ⟨res, fs1, evs1⟩
    have hres : res ≠ .skip := by
      have := hns hmin
      rw [hsv] at this
      exact this
    have hfs1 : fs1 = fs := by
      have := css_fs_of_ne_skip t env p f.size (mkVideoInfo p out) fs (by rw [hsv]; exact hres)
      rw [hsv] at this
      exact this
    refine ⟨evs1, ?_⟩
    rw [inspectPhase, hp]
    cases res with
    | skip => exact absurd rfl hres
    | proceed => simp [hf, hmin, hsv, hfs1]
    | estFail => simp [hf, hmin, hsv, hfs1]
  · refine ⟨[], ?_⟩
    rw [inspectPhase, hp]
    simp [hf, hmin]

/-! ## Claim theorems -/

/-- Claim C4: encoder selection is a pure deterministic function of the pair
(hardwareAvailable, isHDR) returning exactly one of four fixed identifiers
per the 2×2 table — hardware+HDR → `vt_h265_10bit`, hardware+SDR →
`vt_h265`, software+HDR → `x265_10bit`, software+SDR → `x265` — and no
other field of the video info affects the result. -/
theorem claim4_encoder_table :
    ∀ (vi : VideoInfo) (hw : Bool),
      selectEncoder vi hw ∈ ["vt_h265_10bit", "vt_h265", "x265_10bit", "x265"] ∧
      selectEncoder vi hw =
        (if hw then (if vi.isHDR then ("vt_h265_10bit") else ("vt_h265"))
         else (if vi.isHDR then ("x265_10bit") else ("x265"))) ∧
      (∀ vi' : VideoInfo, vi'.isHDR = vi.isHDR → selectEncoder vi' hw = selectEncoder vi hw) := by
  intro vi hw
  refine ⟨?_, rfl, ?_⟩
  · cases hw <;> cases h : vi.isHDR <;> simp [selectEncoder, h]
  · intro vi' h
    simp [selectEncoder, h]

/-- Witness for C4: two video infos agreeing on the HDR flag select the same
encoder, at a concrete instance. -/
theorem claim4_witness :
    selectEncoder ⟨"other.mkv", true, 7200⟩ true = selectEncoder ⟨"file.mkv", true, 3600⟩ true :=
  (claim4_encoder_table ⟨"file.mkv", true, 3600⟩ true).2.2 ⟨"other.mkv", true, 7200⟩ rfl

/-- Claim C8: HDR classification lower-cases the probe text and reports HDR
iff the text contains at least one of the fixed indicator set; in
particular `color_transfer=smpte2084` and `yuv420p10le` classify as HDR
while text containing only `bt709`/`yuv420p` classifies as SDR. -/
theorem claim8_hdr_detection :
    (∀ s : String, detectHDR s = true ↔
      ∃ ind ∈ hdrIndicators, containsStr (lowerStr s) ind = true) ∧
    detectHDR ("color_transfer=smpte2084") = true ∧
    detectHDR ("yuv420p10le") = true ∧
    detectHDR ("color_primaries=bt709 color_transfer=bt709 yuv420p") = false := by
  refine ⟨?_, by decide, by decide, by decide⟩
  intro s
  simp [detectHDR, List.any_eq_true]

/-- Witness for C8: the smpte2084 transfer-function example. -/
theorem claim8_witness : detectHDR ("color_transfer=smpte2084") = true :=
  claim8_hdr_detection.2.1

/-- The savings check touches no path other than the skip sidecar. -/
lemma css_fs_point (t : Transcoder) (env : Env) (p : String) (sz : ℤ)
    (vi : VideoInfo) (fs : FS) (q : String) (hq : q ≠ skipSidecarPath p) :
    (checkSizeSavings t env p sz vi fs).2.1 q = fs q := by
  rcases hest : estimateOutputSize env vi with ⟨r, evs⟩
  rw [checkSizeSavings, hest]
  cases r with
  | none => rfl
  | some est =>
    dsimp only
    split
    · dsimp only
      split
      · exact fsSet_other fs _ _ q hq
      · rfl
    · rfl

/-- Core commit protocol of `transcodeFile`: starting with nothing at the
final path or the in-progress path, the in-progress path is always absent
afterwards, and the final path is populated exactly by a successful encode
followed by a successful rename — and then with the fully-written file. -/
lemma transcodeFile_commit_spec (t : Transcoder) (env : Env) (fs : FS) (p : String)
    (hfinal : fs (generateOutputPath t p) = none)
    (htmp : fs (generateOutputPath t p ++ (".tmp")) = none) :
    (transcodeFile t env fs p).fs (generateOutputPath t p ++ (".tmp")) = none ∧
    ((transcodeFile t env fs p).fs (generateOutputPath t p) = none ∨
      (env.fullEncode = true ∧ env.ctxCancelled = false ∧ env.renameOk = true ∧
       (transcodeFile t env fs p).fs (generateOutputPath t p) =
         some (.media env.fullEncodeSize))) := by
  have hgate : (!t.overwrite && (fs (generateOutputPath t p)).isSome) = false := by
    simp [hfinal]
  have hmainCase :
      (0 < t.minSavingsPercent → (fs (skipSidecarPath p)).isSome = false) →
      (transcodeFile t env fs p).fs (generateOutputPath t p ++ (".tmp")) = none ∧
      ((transcodeFile t env fs p).fs (generateOutputPath t p) = none ∨
        (env.fullEncode = true ∧ env.ctxCancelled = false ∧ env.renameOk = true ∧
         (transcodeFile t env fs p).fs (generateOutputPath t p) =
           some (.media env.fullEncodeSize))) := by
    intro hskip
    rw [transcodeFile_main t env fs p hgate hskip]
    cases hp : env.probe with
    | none =>
      rw [inspectPhase_probe_fail _ _ _ _ _ _ hp]
      exact ⟨htmp, Or.inl hfinal⟩
    | some out =>
      cases hf : fs p with
      | none =>
        rw [inspectPhase_stat_fail _ _ _ _ _ _ out hp hf]
        exact ⟨htmp, Or.inl hfinal⟩
      | some f =>
        rcases hsv : checkSizeSavings t env p f.size (mkVideoInfo p out) fs
          with ⟨res, fs1, evs1⟩
        cases res with
        | skip =>
          by_cases hmin : 0 < t.minSavingsPercent
          · rw [inspectPhase_skip _ _ _ _ _ _ out f fs1 evs1 hp hf hmin hsv]
            have h1 := css_fs_point t env p f.size (mkVideoInfo p out) fs
              (generateOutputPath t p ++ (".tmp")) (tmpPath_ne_skip _ _)
            have h2 := css_fs_point t env p f.size (mkVideoInfo p out) fs
              (generateOutputPath t p) (final_ne_skip _ _ _)
            rw [hsv] at h1 h2
            exact ⟨h1.trans htmp, Or.inl (h2.trans hfinal)⟩
          · obtain ⟨evs1', henc⟩ := inspectPhase_encode t env fs p
              (generateOutputPath t p) [] out f hp hf (fun h => absurd h hmin)
            rw [if_neg hmin, henc]
            refine ⟨encodePhase_fs_tmp _ _ _ _ _, ?_⟩
            rw [encodePhase_fs_final]
            cases h1 : env.fullEncode <;> cases h2 : env.ctxCancelled <;>
              cases h3 : env.renameOk <;> simp [hfinal]
        | proceed =>
          obtain ⟨evs1', henc⟩ := inspectPhase_encode t env fs p
            (generateOutputPath t p) _ out f hp hf (fun _ => by rw [hsv]; simp)
          rw [henc]
          refine ⟨encodePhase_fs_tmp _ _ _ _ _, ?_⟩
          rw [encodePhase_fs_final]
          cases h1 : env.fullEncode <;> cases h2 : env.ctxCancelled <;>
            cases h3 : env.renameOk <;> simp [hfinal]
        | estFail =>
          obtain ⟨evs1', henc⟩ := inspectPhase_encode t env fs p
            (generateOutputPath t p) _ out f hp hf (fun _ => by rw [hsv]; simp)
          rw [henc]
          refine ⟨encodePhase_fs_tmp _ _ _ _ _, ?_⟩
          rw [encodePhase_fs_final]
          cases h1 : env.fullEncode <;> cases h2 : env.ctxCancelled <;>
            cases h3 : env.renameOk <;> simp [hfinal]
  by_cases hmin : 0 < t.minSavingsPercent
  · by_cases hsk : (fs (skipSidecarPath p)).isSome
    · rw [transcodeFile_skipfile t env fs p hgate hmin hsk]
      exact ⟨htmp, Or.inl hfinal⟩
    · exact hmainCase (fun _ => by simpa using hsk)
  · exact hmainCase (fun h => absurd h hmin)

/-- Claim C1: the final output path is populated only by an atomic rename of
the fully-written in-progress file (`finalOutputPath + ".tmp"`); if the
encode subprocess fails or is cancelled, the in-progress file is removed and
nothing exists at the final output path afterwards. -/
theorem claim1_atomic_rename (t : Transcoder) (env : Env) (fs : FS) (p : String)
    (hfinal : fs (generateOutputPath t p) = none)
    (htmp : fs (generateOutputPath t p ++ (".tmp")) = none) :
    (transcodeFile t env fs p).fs (generateOutputPath t p ++ (".tmp")) = none ∧
    ((transcodeFile t env fs p).fs (generateOutputPath t p) = none ∨
      (env.fullEncode = true ∧ env.ctxCancelled = false ∧ env.renameOk = true ∧
       (transcodeFile t env fs p).fs (generateOutputPath t p) =
         some (.media env.fullEncodeSize))) ∧
    ((env.fullEncode = false ∨ env.ctxCancelled = true) →
      (transcodeFile t env fs p).fs (generateOutputPath t p) = none) := by
  obtain ⟨h1, h2⟩ := transcodeFile_commit_spec t env fs p hfinal htmp
  refine ⟨h1, h2, ?_⟩
  intro hfail
  rcases h2 with h | ⟨he, hc, _, _⟩
  · exact h
  · rcases hfail with h | h
    · rw [he] at h; exact absurd h (by simp)
    · rw [hc] at h; exact absurd h (by simp)

/-- Witness for C1: at a concrete job where the encode subprocess fails and
leaves a partial temp file, the temp path and the final path are both absent
afterwards. -/
theorem claim1_witness :
    fsEx (generateOutputPath tEx ("a.mp4")) = none ∧
    fsEx (generateOutputPath tEx ("a.mp4") ++ (".tmp")) = none ∧
    ((transcodeFile tEx envEncodeFailEx fsEx ("a.mp4")).fs
        (generateOutputPath tEx ("a.mp4") ++ (".tmp")) = none ∧
      ((transcodeFile tEx envEncodeFailEx fsEx ("a.mp4")).fs
          (generateOutputPath tEx ("a.mp4")) = none ∨
        (envEncodeFailEx.fullEncode = true ∧ envEncodeFailEx.ctxCancelled = false ∧
         envEncodeFailEx.renameOk = true ∧
         (transcodeFile tEx envEncodeFailEx fsEx ("a.mp4")).fs
           (generateOutputPath tEx ("a.mp4")) =
             some (.media envEncodeFailEx.fullEncodeSize))) ∧
      ((envEncodeFailEx.fullEncode = false ∨ envEncodeFailEx.ctxCancelled = true) →
        (transcodeFile tEx envEncodeFailEx fsEx ("a.mp4")).fs
          (generateOutputPath tEx ("a.mp4")) = none)) :=
  ⟨by decide, by decide,
    claim1_atomic_rename tEx envEncodeFailEx fsEx ("a.mp4") (by decide) (by decide)⟩

/-- Counterexample for C7: a run where the encode succeeds (the full-encode
event is present) but the rename fails; the in-progress file is *removed* by
the deferred cleanup, not left in place as the claim states. -/
theorem claim7_counterexample :
    (transcodeFile tEx envRenameFailEx fsEx ("a.mp4")).ok = false ∧
    Ev.fullEncode ("x265") ∈ (transcodeFile tEx envRenameFailEx fsEx ("a.mp4")).events ∧
    (transcodeFile tEx envRenameFailEx fsEx ("a.mp4")).fs
      (generateOutputPath tEx ("a.mp4") ++ (".tmp")) = none := by
  decide

/-- Amended claim C7: if the atomic rename fails after a successful encode,
the job reports a per-file error and the deferred cleanup removes the
in-progress temp file — the same cleanup as any other failure — leaving
nothing at either the temp or the final path. -/
theorem claim7_rename_failure (t : Transcoder) (env : Env) (fs : FS) (p out : String)
    (f : FsFile)
    (hfinal : fs (generateOutputPath t p) = none)
    (htmp : fs (generateOutputPath t p ++ (".tmp")) = none)
    (hp : env.probe = some out) (hf : fs p = some f)
    (hskip : 0 < t.minSavingsPercent → (fs (skipSidecarPath p)).isSome = false)
    (hns : 0 < t.minSavingsPercent →
      (checkSizeSavings t env p f.size (mkVideoInfo p out) fs).1 ≠ .skip)
    (henc : env.fullEncode = true) (hcxl : env.ctxCancelled = false)
    (hren : env.renameOk = false) :
    (transcodeFile t env fs p).ok = false ∧
    (transcodeFile t env fs p).fs (generateOutputPath t p ++ (".tmp")) = none ∧
    (transcodeFile t env fs p).fs (generateOutputPath t p) = none := by
  have hgate : (!t.overwrite && (fs (generateOutputPath t p)).isSome) = false := by
    simp [hfinal]
  rw [transcodeFile_main t env fs p hgate hskip]
  obtain ⟨evs1, hrw⟩ := inspectPhase_encode t env fs p (generateOutputPath t p)
    (if 0 < t.minSavingsPercent then [Ev.skipStat] else []) out f hp hf hns
  rw [hrw]
  refine ⟨?_, encodePhase_fs_tmp _ _ _ _ _, ?_⟩
  · rw [encodePhase_ok, hren]
    simp
  · rw [encodePhase_fs_final, hren]
    simp [hfinal]

/-- Witness for the amended C7: concrete failing-rename run, temp and final
both absent, error reported. -/
theorem claim7_witness :
    fsEx (generateOutputPath tEx ("a.mp4")) = none ∧
    envRenameFailEx.fullEncode = true ∧ envRenameFailEx.renameOk = false ∧
    ((transcodeFile tEx envRenameFailEx fsEx ("a.mp4")).ok = false ∧
      (transcodeFile tEx envRenameFailEx fsEx ("a.mp4")).fs
        (generateOutputPath tEx ("a.mp4") ++ (".tmp")) = none ∧
      (transcodeFile tEx envRenameFailEx fsEx ("a.mp4")).fs
        (generateOutputPath tEx ("a.mp4")) = none) :=
  ⟨by decide, by decide, by decide,
    claim7_rename_failure tEx envRenameFailEx fsEx ("a.mp4") ("") (.media 1000000)
      (by decide) (by decide) (by decide) (by decide)
      (fun h => absurd h (by decide)) (fun h => absurd h (by decide))
      (by decide) (by decide) (by decide)⟩

/-- With a zero threshold the savings machinery is not invoked at all: the
inspection phase goes straight to the encode phase with no extra events. -/
lemma inspectPhase_encode_min0 (t : Transcoder) (env : Env) (fs : FS)
    (p fp : String) (evs0 : List Ev) (out : String) (f : FsFile)
    (hp : env.probe = some out) (hf : fs p = some f)
    (hmin0 : ¬ 0 < t.minSavingsPercent) :
    inspectPhase t env fs p fp evs0 =
      encodePhase env fs fp (mkVideoInfo p out) (evs0 ++ []) := by
  rw [inspectPhase, hp]
  simp [hf, hmin0]

/-- Claim C3: when the `.skip` sidecar for an input exists and the
minimum-savings threshold is positive, processing that input never invokes
the full encoder (the sidecar's contents are irrelevant — any file at the
sidecar path suffices); when the threshold is zero, both the skip-marker
check and size estimation are bypassed entirely. -/
theorem claim3_skip_sidecar (t : Transcoder) (env : Env) (fs : FS) (p : String) :
    (0 < t.minSavingsPercent → (fs (skipSidecarPath p)).isSome →
      (∀ e ∈ (transcodeFile t env fs p).events, ∀ enc, e ≠ Ev.fullEncode enc) ∧
      (transcodeFile t env fs p).ok = true) ∧
    (t.minSavingsPercent = 0 →
      Ev.skipStat ∉ (transcodeFile t env fs p).events ∧
      (∀ e ∈ (transcodeFile t env fs p).events, ∀ st d, e ≠ Ev.segmentEncode st d)) := by
  constructor
  · intro hmin hsk
    cases hg : (!t.overwrite && (fs (generateOutputPath t p)).isSome) with
    | true =>
      rw [Bool.and_eq_true] at hg
      have hov : t.overwrite = false := by
        cases ho : t.overwrite
        · rfl
        · rw [ho] at hg; simp at hg
      rw [transcodeFile_output_exists t env fs p hov hg.2]
      exact ⟨by simp, rfl⟩
    | false =>
      rw [transcodeFile_skipfile t env fs p hg hmin hsk]
      refine ⟨?_, rfl⟩
      intro e he enc
      simp only [List.mem_singleton] at he
      subst he
      simp
  · intro hmin0
    have hnm : ¬ 0 < t.minSavingsPercent := by omega
    cases hg : (!t.overwrite && (fs (generateOutputPath t p)).isSome) with
    | true =>
      rw [Bool.and_eq_true] at hg
      have hov : t.overwrite = false := by
        cases ho : t.overwrite
        · rfl
        · rw [ho] at hg; simp at hg
      rw [transcodeFile_output_exists t env fs p hov hg.2]
      exact ⟨by simp, by simp⟩
    | false =>
      rw [transcodeFile_main t env fs p hg (fun h => absurd h hnm), if_neg hnm]
      cases hp : env.probe with
      | none =>
        rw [inspectPhase_probe_fail _ _ _ _ _ _ hp]
        exact ⟨by simp, by simp⟩
      | some out =>
        cases hf : fs p with
        | none =>
          rw [inspectPhase_stat_fail _ _ _ _ _ _ out hp hf]
          exact ⟨by simp, by simp⟩
        | some f =>
          rw [inspectPhase_encode_min0 t env fs p _ [] out f hp hf hnm]
          rw [encodePhase_events]
          constructor
          · simp
          · intro e he st d
            simp only [List.nil_append, List.mem_singleton] at he
            subst he
            simp

/-- Witness for C3: with the sidecar present and a positive threshold, the
concrete run succeeds and performs no full encode. -/
theorem claim3_witness :
    (transcodeFile tMinEx envOkEx fsSkipEx ("a.mp4")).ok = true ∧
    Ev.fullEncode ("x265") ∉ (transcodeFile tMinEx envOkEx fsSkipEx ("a.mp4")).events :=
  ⟨((claim3_skip_sidecar tMinEx envOkEx fsSkipEx ("a.mp4")).1 (by decide) (by decide)).2,
   fun hmem =>
    ((claim3_skip_sidecar tMinEx envOkEx fsSkipEx ("a.mp4")).1 (by decide) (by decide)).1
      _ hmem ("x265") rfl⟩

/-- Claim C9: running the file loop again with `overwrite=false` over inputs
that are all already committed (output exists) or legitimately skipped
(sidecar present under a positive threshold) performs no full-encoder
invocation — and in fact no encode of any kind: every file short-circuits
before inspection, the filesystem is unchanged, and the only recorded events
are skip-marker stats. -/
theorem claim9_second_run_idempotent (t : Transcoder) (envOf : String → Env)
    (fs : FS) (files : List String)
    (hov : t.overwrite = false)
    (hdone : ∀ f ∈ files, (fs (generateOutputPath t f)).isSome ∨
      (0 < t.minSavingsPercent ∧ (fs (skipSidecarPath f)).isSome)) :
    (runFiles t envOf fs files).1 = fs ∧
    ∀ e ∈ (runFiles t envOf fs files).2, e = Ev.skipStat := by
  induction files with
  | nil => exact ⟨rfl, by simp [runFiles]⟩
  | cons f rest ih =>
    have hd := hdone f (by simp)
    have hrest := ih (fun g hg => hdone g (by simp [hg]))
    rw [runFiles]
    cases hcxl : (envOf f).ctxCancelled with
    | true =>
      exact ⟨by simp, by simp⟩
    | false =>
      simp only [Bool.false_eq_true, if_false]
      have ho : transcodeFile t (envOf f) fs f = { ok := true, fs := fs, events := [] } ∨
          transcodeFile t (envOf f) fs f = { ok := true, fs := fs, events := [Ev.skipStat] } := by
        rcases hd with hout | ⟨hmin, hsk⟩
        · exact Or.inl (transcodeFile_output_exists t (envOf f) fs f hov hout)
        · by_cases hiso : (fs (generateOutputPath t f)).isSome
          · exact Or.inl (transcodeFile_output_exists t (envOf f) fs f hov hiso)
          · refine Or.inr (transcodeFile_skipfile t (envOf f) fs f ?_ hmin hsk)
            simp [hov]
            simpa using hiso
      rcases ho with ho | ho <;> rw [ho] <;>
        refine ⟨hrest.1, ?_⟩ <;> intro e he <;> simp at he
      · exact hrest.2 e he
      · rcases he with he | he
        · exact he
        · exact hrest.2 e he

/-- Witness for C9: the two-file second run leaves the filesystem unchanged
and contains no full-encode invocation. -/
theorem claim9_witness :
    (runFiles tMinEx (fun _ => envOkEx) fsDoneEx ["a.mp4", "b.mp4"]).1 = fsDoneEx ∧
    Ev.fullEncode ("x265") ∉
      (runFiles tMinEx (fun _ => envOkEx) fsDoneEx ["a.mp4", "b.mp4"]).2 := by
  have h := claim9_second_run_idempotent tMinEx (fun _ => envOkEx) fsDoneEx
    ["a.mp4", "b.mp4"] rfl (by
      intro f hf
      simp only [List.mem_cons, List.not_mem_nil, or_false] at hf
      rcases hf with hf | hf
      · subst hf; left; decide
      · subst hf; right; exact ⟨by decide, by decide⟩)
  refine ⟨h.1, fun hmem => ?_⟩
  have he := h.2 _ hmem
  exact absurd he (by decide)

/-- Counterexample for C10: for an input path that is not in cleaned form
(`./video.mkv`), the generated output path is the cleaned path
`video.mkv`, not the input path itself as the claim states. -/
theorem claim10_counterexample :
    generateOutputPath tNoSuffixEx ("./video.mkv") = "video.mkv" ∧
    generateOutputPath tNoSuffixEx ("./video.mkv") ≠ "./video.mkv" := by
  decide

/-- Amended claim C10: with an empty suffix and an input ending in `.mkv`,
`generateOutputPath` returns the cleaned input path — the input itself
exactly when the input path is already clean.  Whenever the generated output
path equals the input path: with `overwrite=false` the file is always
skipped at the existing-output check (its own existence satisfies the
check, and nothing is modified), and with `overwrite=true` a successful
commit renames the transcoded output over the original source file. -/
theorem claim10_inplace_output (t : Transcoder) (env : Env) (fs : FS)
    (p out : String) (f : FsFile)
    (hsuf : t.outputSuffix = "")
    (hmkv : ∃ z, p.data = z ++ mkvTail)
    (heq : generateOutputPath t p = p) :
    (t.overwrite = false → (fs p).isSome →
      (transcodeFile t env fs p).ok = true ∧
      (transcodeFile t env fs p).events = [] ∧
      (∀ q, (transcodeFile t env fs p).fs q = fs q)) ∧
    (t.overwrite = true → t.minSavingsPercent = 0 →
      env.fullEncode = true → env.ctxCancelled = false → env.renameOk = true →
      env.probe = some out → fs p = some f →
      (transcodeFile t env fs p).fs p = some (.media env.fullEncodeSize)) := by
  constructor
  · intro hov hex
    have hex' : (fs (generateOutputPath t p)).isSome := by rw [heq]; exact hex
    rw [transcodeFile_output_exists t env fs p hov hex']
    exact ⟨rfl, rfl, fun q => rfl⟩
  · intro hov hmin0 he hc hr hp hf
    have hnm : ¬ 0 < t.minSavingsPercent := by omega
    have hgate : (!t.overwrite && (fs (generateOutputPath t p)).isSome) = false := by
      simp [hov]
    rw [transcodeFile_main t env fs p hgate (fun h => absurd h hnm), if_neg hnm]
    rw [inspectPhase_encode_min0 t env fs p _ [] out f hp hf hnm]
    rw [heq]
    rw [encodePhase_fs_final, he, hc, hr]
    simp

/-- Witness for the amended C10: a clean `.mkv` input maps to itself; with
`overwrite=false` the run skips, and with `overwrite=true` the source is
replaced by the transcoded output. -/
theorem claim10_witness :
    generateOutputPath tNoSuffixEx ("dir/v.mkv") = "dir/v.mkv" ∧
    (transcodeFile tNoSuffixEx envOkEx fsInplaceEx ("dir/v.mkv")).ok = true ∧
    (transcodeFile tNoSuffixEx envOkEx fsInplaceEx ("dir/v.mkv")).events = [] ∧
    (transcodeFile tOverwriteEx envOkEx fsInplaceEx ("dir/v.mkv")).fs ("dir/v.mkv") =
      some (.media 500) := by
  have h1 := claim10_inplace_output tNoSuffixEx envOkEx fsInplaceEx ("dir/v.mkv") ("")
    (.media 777) rfl ⟨("dir/v").data, by decide⟩ (by decide)
  have h2 := claim10_inplace_output tOverwriteEx envOkEx fsInplaceEx ("dir/v.mkv") ("")
    (.media 777) rfl ⟨("dir/v").data, by decide⟩ (by decide)
  exact ⟨by decide, (h1.1 rfl (by decide)).1, (h1.1 rfl (by decide)).2.1,
    h2.2 rfl rfl rfl rfl rfl rfl (by decide)⟩

/-- Counterexample for C6: the empty probe output has no parseable duration,
yet video inspection does not fail — the monolithic transcoder substitutes
the 3600-second default and the file is processed to completion. -/
theorem claim6_counterexample :
    durationValue ("") = none ∧
    parseDuration ("") = 3600 ∧
    (transcodeFile tEx envOkEx fsEx ("a.mp4")).ok = true ∧
    Ev.fullEncode ("x265") ∈ (transcodeFile tEx envOkEx fsEx ("a.mp4")).events := by
  decide

/-- Amended claim C6: when no parseable duration can be extracted from the
probe output, the transcoder path actually wired to the CLI
(`lib/handbrake.go`) does not fail: its `parseDuration` logs a warning and
substitutes a 3600-second default, so inspection always succeeds; only the
standalone `GetVideoInfo` in `lib/ffprobe.go` treats this as a hard
per-file failure. -/
theorem claim6_duration_default :
    ∀ s : String, durationValue s = none →
      parseDuration s = 3600 ∧
      ffprobeParseDuration s = none ∧
      ffprobeGetVideoInfo ("f.mkv") (some s) = none ∧
      (∀ p : String, mkVideoInfo p s = ⟨p, detectHDR s, 3600⟩) := by
  intro s h
  refine ⟨?_, ?_, ?_, ?_⟩
  · rw [parseDuration, h]
  · rw [ffprobeParseDuration]; exact h
  · rw [ffprobeGetVideoInfo]; simp [h]
  · intro p; rw [mkVideoInfo, parseDuration, h]

/-- Witness for the amended C6: the empty probe output. -/
theorem claim6_witness :
    durationValue ("") = none ∧ parseDuration ("") = 3600 ∧
    ffprobeParseDuration ("") = none ∧
    ffprobeGetVideoInfo ("f.mkv") (some ("")) = none :=
  ⟨by decide, (claim6_duration_default ("") (by decide)).1,
    (claim6_duration_default ("") (by decide)).2.1,
    (claim6_duration_default ("") (by decide)).2.2.1⟩

/-- Claim C2: with savings-checking enabled, the skip decision computes
`savingsPercent = (originalSize - estimatedSize) / originalSize * 100` and
skips — writing a `SkipRecord` whose `requiredSizeBytes` is
`originalSize * (100 - threshold) / 100` — iff `savingsPercent` is strictly
below the threshold; otherwise the decision is proceed and the file goes on
to the full encode. -/
theorem claim2_savings_threshold (t : Transcoder) (env : Env) (p : String)
    (origSize est : ℤ) (vi : VideoInfo) (fs : FS)
    (hpos : 0 < origSize)
    (hest : (estimateOutputSize env vi).1 = some est) :
    ((checkSizeSavings t env p origSize vi fs).1 = .skip ↔
      ((origSize - est : ℤ) : ℚ) / (origSize : ℚ) * 100 < (t.minSavingsPercent : ℚ)) ∧
    (((origSize - est : ℤ) : ℚ) / (origSize : ℚ) * 100 < (t.minSavingsPercent : ℚ) →
      (checkSizeSavings t env p origSize vi fs).2.2 =
        (estimateOutputSize env vi).2 ++
          [Ev.skipWrite (mkSkipInfo t env ("insufficient_savings") origSize est
            (selectEncoder vi env.hasVideoToolbox))] ∧
      (mkSkipInfo t env ("insufficient_savings") origSize est
          (selectEncoder vi env.hasVideoToolbox)).requiredSizeBytes =
        f64toI64 ((origSize : ℚ) * ((100 : ℚ) - (t.minSavingsPercent : ℚ)) / 100)) ∧
    (¬ ((origSize - est : ℤ) : ℚ) / (origSize : ℚ) * 100 < (t.minSavingsPercent : ℚ) →
      (checkSizeSavings t env p origSize vi fs).1 = .proceed) ∧
    (∀ (out : String) (f : FsFile),
      fs (generateOutputPath t p) = none → 0 < t.minSavingsPercent →
      (fs (skipSidecarPath p)).isSome = false →
      env.probe = some out → fs p = some f →
      vi = mkVideoInfo p out → origSize = f.size →
      ¬ ((origSize - est : ℤ) : ℚ) / (origSize : ℚ) * 100 < (t.minSavingsPercent : ℚ) →
      Ev.fullEncode (selectEncoder vi env.hasVideoToolbox) ∈
        (transcodeFile t env fs p).events) := by
  rcases hp2 : estimateOutputSize env vi with ⟨r, evs⟩
  rw [hp2] at hest
  simp only at hest
  subst hest
  have hproceed : ¬ ((origSize - est : ℤ) : ℚ) / (origSize : ℚ) * 100 < (t.minSavingsPercent : ℚ) →
      (checkSizeSavings t env p origSize vi fs).1 = .proceed := by
    intro hnlt
    rw [checkSizeSavings, hp2]
    dsimp only
    rw [if_neg hnlt]
  refine ⟨?_, ?_, hproceed, ?_⟩
  · rw [checkSizeSavings, hp2]
    dsimp only
    split
    · rename_i hcond
      exact iff_of_true rfl hcond
    · rename_i hcond
      exact iff_of_false (by simp) hcond
  · intro hlt
    rw [checkSizeSavings, hp2]
    dsimp only
    rw [if_pos hlt]
    exact ⟨rfl, rfl⟩
  · intro out f hfin hmin hsk hp hf hvi horig hnlt
    have hgate : (!t.overwrite && (fs (generateOutputPath t p)).isSome) = false := by
      simp [hfin]
    rw [transcodeFile_main t env fs p hgate (fun _ => hsk)]
    have hns : 0 < t.minSavingsPercent →
        (checkSizeSavings t env p f.size (mkVideoInfo p out) fs).1 ≠ .skip := by
      intro _
      rw [← hvi, ← horig, hproceed hnlt]
      simp
    obtain ⟨evs1, hrw⟩ := inspectPhase_encode t env fs p (generateOutputPath t p)
      (if 0 < t.minSavingsPercent then [Ev.skipStat] else []) out f hp hf hns
    rw [hrw, encodePhase_events, hvi]
    simp

set_option maxRecDepth 80000 in
/-- Witness for C2: a 30-second video estimated at 12 bytes.  A 14-byte
original (14.3% savings) is skipped — with the record documenting the
required 11-byte target — while a 15-byte original (exactly 20% savings,
not strictly below the threshold) proceeds. -/
theorem claim2_witness :
    (estimateOutputSize envSegEx (mkVideoInfo ("a.mp4") probeS)).1 = some 12 ∧
    (checkSizeSavings tMinEx envSegEx ("a.mp4") 14
      (mkVideoInfo ("a.mp4") probeS) fsEx).1 = .skip ∧
    (checkSizeSavings tMinEx envSegEx ("a.mp4") 15
      (mkVideoInfo ("a.mp4") probeS) fsEx).1 = .proceed ∧
    (mkSkipInfo tMinEx envSegEx ("insufficient_savings") 14 12
      ("x265")).requiredSizeBytes = 11 := by
  have hskp := claim2_savings_threshold tMinEx envSegEx ("a.mp4") 14 12
    (mkVideoInfo ("a.mp4") probeS) fsEx (by decide) (by with_unfolding_all decide)
  have hprc := claim2_savings_threshold tMinEx envSegEx ("a.mp4") 15 12
    (mkVideoInfo ("a.mp4") probeS) fsEx (by decide) (by with_unfolding_all decide)
  exact ⟨by with_unfolding_all decide,
    hskp.1.mpr (by with_unfolding_all decide),
    hprc.2.2.1 (by with_unfolding_all decide),
    by with_unfolding_all decide⟩

/-- Claim C5: size estimation encodes three 10-second segments starting at
25%, 50% and 75% of the duration; the estimate is
`totalBytes / (successes * 10) * duration` over whichever subset succeeded;
with zero successes estimation fails, and the caller treats that failure as
non-fatal — the file proceeds to the full encode. -/
theorem claim5_estimation (t : Transcoder) (env : Env) (vi : VideoInfo)
    (hcx : env.ctxCancelled = false) :
    (estimateOutputSize env vi).2 =
      [Ev.segmentEncode (vi.duration * (1/4)) 10,
       Ev.segmentEncode (vi.duration * (1/2)) 10,
       Ev.segmentEncode (vi.duration * (3/4)) 10] ∧
    ((((List.range 3).map env.segEncode).filterMap id).length = 0 →
      (estimateOutputSize env vi).1 = none) ∧
    (∀ n : ℕ, (((List.range 3).map env.segEncode).filterMap id).length = n → 0 < n →
      (estimateOutputSize env vi).1 =
        some (f64toI64 ((((((List.range 3).map env.segEncode).filterMap id).sum : ℤ) : ℚ) /
          ((n : ℚ) * 10) * vi.duration))) ∧
    (∀ (fs : FS) (p out : String) (f : FsFile),
      env.segEncode 0 = none → env.segEncode 1 = none → env.segEncode 2 = none →
      fs (generateOutputPath t p) = none → 0 < t.minSavingsPercent →
      (fs (skipSidecarPath p)).isSome = false →
      env.probe = some out → fs p = some f →
      Ev.fullEncode (selectEncoder (mkVideoInfo p out) env.hasVideoToolbox) ∈
        (transcodeFile t env fs p).events) := by
  refine ⟨?_, ?_, ?_, ?_⟩
  · rw [estimateOutputSize, hcx]
    simp only [Bool.false_eq_true, if_false]
    split <;> rfl
  · intro hlen
    rw [estimateOutputSize, hcx]
    simp only [Bool.false_eq_true, if_false]
    rw [if_pos hlen]
  · intro n hlen hpos
    rw [estimateOutputSize, hcx]
    simp only [Bool.false_eq_true, if_false]
    rw [hlen, if_neg (by omega)]
  · intro fs p out f h0 h1 h2 hfin hmin hsk hp hf
    have hestf : estimateOutputSize env (mkVideoInfo p out) =
        (none, (estimateOutputSize env (mkVideoInfo p out)).2) := by
      rcases hq : estimateOutputSize env (mkVideoInfo p out) with ⟨r, evs⟩
      have : r = none := by
        rw [estimateOutputSize, hcx] at hq
        simp only [Bool.false_eq_true, if_false] at hq
        rw [if_pos (by simp [h0, h1, h2, List.range_succ])] at hq
        exact (Prod.mk.injEq _ _ _ _ ▸ hq).1.symm ▸ rfl
      simp [this]
    have hns : 0 < t.minSavingsPercent →
        (checkSizeSavings t env p f.size (mkVideoInfo p out) fs).1 ≠ .skip := by
      intro _
      rw [checkSizeSavings, hestf]
      simp
    have hgate : (!t.overwrite && (fs (generateOutputPath t p)).isSome) = false := by
      simp [hfin]
    rw [transcodeFile_main t env fs p hgate (fun _ => hsk)]
    obtain ⟨evs1, hrw⟩ := inspectPhase_encode t env fs p (generateOutputPath t p)
      (if 0 < t.minSavingsPercent then [Ev.skipStat] else []) out f hp hf hns
    rw [hrw, encodePhase_events]
    simp

set_option maxRecDepth 80000 in
/-- Witness for C5: the 30-second video is sampled at 7.5 s, 15 s and
22.5 s; all three segments succeed and yield the 12-byte estimate; with all
segments failing, estimation fails and the concrete run still reaches the
full encode. -/
theorem claim5_witness :
    (estimateOutputSize envSegEx (mkVideoInfo ("a.mp4") probeS)).2 =
      [Ev.segmentEncode ((15 : ℚ)/2) 10, Ev.segmentEncode 15 10,
       Ev.segmentEncode ((45 : ℚ)/2) 10] ∧
    (estimateOutputSize envSegEx (mkVideoInfo ("a.mp4") probeS)).1 = some 12 ∧
    (estimateOutputSize envOkEx (mkVideoInfo ("a.mp4") (""))).1 = none ∧
    Ev.fullEncode ("x265") ∈ (transcodeFile tMinEx envOkEx fsEx ("a.mp4")).events := by
  have h2 := claim5_estimation tMinEx envOkEx (mkVideoInfo ("a.mp4") ("")) rfl
  have h4 := h2.2.2.2 fsEx ("a.mp4") ("") (.media 1000000) rfl rfl rfl (by decide)
    (by decide) (by decide) rfl (by decide)
  have hsel : selectEncoder (mkVideoInfo ("a.mp4") ("")) envOkEx.hasVideoToolbox = "x265" := by
    decide
  rw [hsel] at h4
  refine ⟨?_, by with_unfolding_all decide, h2.2.1 (by decide), h4⟩
  have h1 := claim5_estimation tMinEx envSegEx (mkVideoInfo ("a.mp4") probeS) rfl
  rw [h1.1]
  with_unfolding_all decide

end MediaMgmt
